import Mathlib

/-!
Verification of the rdscom single-header communication library (rdscom.hpp).

The C++ source is shallowly embedded:
- std::map is modeled as a sorted association list (mapFind / mapInsert /
  mapErase below); std::map iterates in ascending key order, inserts keep
  unique keys, and operator[] followed by assignment is insert-or-replace.
- Byte vectors (std::vector of uint8_t) are modeled as List Nat whose
  elements are the byte values.
- Field names (std::string) are modeled as List Nat of their bytes;
  std::string comparison is byte-wise lexicographic (lexLt below).
- Machine integers are Nat; where C++ arithmetic can wrap, the reduction
  modulo 2 to the relevant width is written out explicitly.
- Result of T is modeled as Option: errorResult is none, ok v is some v.
  Calling value() on an error Result returns a default-constructed T, which
  is modeled by Option.getD with the default value of the type.
- User callbacks (std::function values) are modeled by opaque numeric
  identifiers; invoking a callback is recorded as an (id, message) event.
- The time function of CommunicationInterfaceOptions is modeled by passing
  the value it currently returns (a uint64 tick) into each engine step.
-/

namespace rdscom

/-! ### Association-list model of std::map -/

/-- Lookup in a std::map: the value stored under key k, if any. -/
def mapFind {κ α : Type} [DecidableEq κ] (k : κ) : List (κ × α) → Option α
  | [] => none
  | (k', v) :: rest => if k = k' then some v else mapFind k rest

/-- Insert-or-replace under sorted order, as std::map operator[] assignment
does: the list stays sorted by the strict order lt, and an existing entry
with the same key is replaced in place. -/
def mapInsert {κ α : Type} [DecidableEq κ] (lt : κ → κ → Bool) (k : κ) (v : α) :
    List (κ × α) → List (κ × α)
  | [] => [(k, v)]
  | (k', v') :: rest =>
    if lt k k' then (k, v) :: (k', v') :: rest
    else if k = k' then (k, v) :: rest
    else (k', v') :: mapInsert lt k v rest

/-- Erase by key, as std::map erase(key): removes the entry with that key. -/
def mapErase {κ α : Type} [DecidableEq κ] (k : κ) : List (κ × α) → List (κ × α)
  | [] => []
  | (k', v) :: rest => if k = k' then rest else (k', v) :: mapErase k rest

/-- Strict order on Nat keys used by the engine's std::map instances. -/
def natLt (a b : Nat) : Bool := a < b

/-- Byte-wise lexicographic strict order on byte strings: the comparison
std::string operator< performs, used by the field map of DataPrototype. -/
def lexLt : List Nat → List Nat → Bool
  | [], [] => false
  | [], _ :: _ => true
  | _ :: _, [] => false
  | a :: as, b :: bs => if a < b then true else if b < a then false else lexLt as bs

/-! ### Data fields and prototypes -/

/-- Enum DataFieldType. -/
inductive DataFieldType where
  | UINT8 | UINT16 | UINT32 | UINT64
  | INT8 | INT16 | INT32 | INT64
  | FLOAT | DOUBLE | BOOL | BYTE
  | NONE
  deriving DecidableEq, Repr

/-- DataField::getSizeOfType: byte width of each field type. -/
def getSizeOfType : DataFieldType → Nat
  | .UINT8 | .INT8 | .BOOL | .BYTE => 1
  | .UINT16 | .INT16 => 2
  | .UINT32 | .INT32 | .FLOAT => 4
  | .UINT64 | .INT64 | .DOUBLE => 8
  | .NONE => 0

/-- The numeric value of each DataFieldType enumerator, in declaration
order, as static_cast to uint8_t produces it. -/
def dataFieldTypeToByte : DataFieldType → Nat
  | .UINT8 => 0 | .UINT16 => 1 | .UINT32 => 2 | .UINT64 => 3
  | .INT8 => 4 | .INT16 => 5 | .INT32 => 6 | .INT64 => 7
  | .FLOAT => 8 | .DOUBLE => 9 | .BOOL => 10 | .BYTE => 11
  | .NONE => 12

/-- static_cast from a byte to DataFieldType. Bytes beyond the enumerator
range are mapped to NONE: such values never arise from serializeFormat, and
getSizeOfType gives them width 0 exactly as the C++ switch default does. -/
def dataFieldTypeOfByte (b : Nat) : DataFieldType :=
  if b = 0 then .UINT8 else if b = 1 then .UINT16 else if b = 2 then .UINT32
  else if b = 3 then .UINT64 else if b = 4 then .INT8 else if b = 5 then .INT16
  else if b = 6 then .INT32 else if b = 7 then .INT64 else if b = 8 then .FLOAT
  else if b = 9 then .DOUBLE else if b = 10 then .BOOL else if b = 11 then .BYTE
  else .NONE

/-- struct DataField: offset into the buffer plus a type. -/
structure DataField where
  offset : Nat
  type : DataFieldType
  deriving DecidableEq, Repr

/-- DataField::size. -/
def DataField.size (f : DataField) : Nat := getSizeOfType f.type

/-- Reserved identifier marking an unset prototype. -/
def RESERVED_ERROR_PROTOTYPE : Nat := 80

/-- Modulus of size_t arithmetic (the library targets 64-bit size_t). -/
def SIZE_T_MOD : Nat := 2 ^ 64

/-- class DataPrototype: an 8-bit identifier, the accumulated byte size,
and the name-to-field std::map (sorted by name, byte-wise lexicographic). -/
structure DataPrototype where
  identifier : Nat
  size : Nat
  fields : List (List Nat × DataField)
  deriving DecidableEq, Repr

/-- DataPrototype default constructor: reserved identifier, no fields. -/
def DataPrototype.empty : DataPrototype := ⟨RESERVED_ERROR_PROTOTYPE, 0, []⟩

/-- DataPrototype(identifier) constructor. -/
def DataPrototype.new (identifier : Nat) : DataPrototype := ⟨identifier, 0, []⟩

/-- DataPrototype::addField: if the name exists, its old width is first
subtracted from the size (size_t arithmetic); the new field is stored with
offset equal to the size after that subtraction, and the size grows by the
new width. -/
def DataPrototype.addField (p : DataPrototype) (name : List Nat) (type : DataFieldType) :
    DataPrototype :=
  let sizeAfterRemove : Nat :=
    match mapFind name p.fields with
    | some old => (p.size + SIZE_T_MOD - old.size % SIZE_T_MOD) % SIZE_T_MOD
    | none => p.size
  let newField : DataField := ⟨sizeAfterRemove, type⟩
  { p with fields := mapInsert lexLt name newField p.fields,
           size := (sizeAfterRemove + newField.size) % SIZE_T_MOD }

/-- DataPrototype::findField. -/
def DataPrototype.findField (p : DataPrototype) (name : List Nat) : Option DataField :=
  mapFind name p.fields

/-- DataPrototype::numFields. -/
def DataPrototype.numFields (p : DataPrototype) : Nat := p.fields.length

/-- DataPrototype::serializeFormat: identifier byte, field-count byte, then
per field (in map order, ascending name) a name-length byte, the name
bytes, and the type byte. -/
def DataPrototype.serializeFormat (p : DataPrototype) : List Nat :=
  [p.identifier % 256, p.fields.length % 256] ++
    p.fields.flatMap (fun f => (f.1.length % 256) :: (f.1 ++ [dataFieldTypeToByte f.2.type]))

/-- The field-reading loop of DataPrototype::fromSerializedFormat, indexed
by the number of fields still to read and the current read offset. -/
def fromSerializedFormatLoop (serialized : List Nat) :
    Nat → Nat → DataPrototype → Option DataPrototype
  | 0, _, proto => some proto
  | n + 1, offset, proto =>
    if offset + 1 ≥ serialized.length then none
    else
      let nameSize := serialized.getD offset 0
      let o1 := offset + 1
      if o1 + nameSize + 1 ≥ serialized.length then none
      else
        let name := (serialized.drop o1).take nameSize
        let o2 := o1 + nameSize
        let type := dataFieldTypeOfByte (serialized.getD o2 0)
        let newField : DataField := ⟨proto.size, type⟩
        fromSerializedFormatLoop serialized n (o2 + 1)
          { proto with fields := mapInsert lexLt name newField proto.fields,
                       size := (proto.size + newField.size) % SIZE_T_MOD }

/-- DataPrototype::fromSerializedFormat. -/
def DataPrototype.fromSerializedFormat (serialized : List Nat) : Option DataPrototype :=
  if serialized.length < 2 then none
  else
    fromSerializedFormatLoop serialized (serialized.getD 1 0) 2
      ⟨serialized.getD 0 0, 0, []⟩

/-! ### Data buffers -/

/-- class DataBuffer: a prototype plus its backing byte vector. -/
structure DataBuffer where
  type : DataPrototype
  data : List Nat
  deriving DecidableEq, Repr

/-- DataBuffer default constructor. -/
def DataBuffer.empty : DataBuffer := ⟨DataPrototype.empty, []⟩

/-- DataBuffer(prototype) constructor: the backing store is resized (and
zero-filled) to the prototype size. -/
def DataBuffer.ofPrototype (p : DataPrototype) : DataBuffer :=
  ⟨p, List.replicate p.size 0⟩

/-- DataBuffer::createFromPrototype. -/
def DataBuffer.createFromPrototype (type : DataPrototype) (data : List Nat) :
    Option DataBuffer :=
  if type.identifier = RESERVED_ERROR_PROTOTYPE then none
  else if data.length ≠ type.size then none
  else some ⟨type, data⟩

/-- DataBuffer::getField, with the template parameter T abstracted to its
byte width w = sizeof(T). On success the w bytes memcpy reads starting at
the field offset are returned; a read past the end of the backing vector is
undefined behavior in C++ and is modeled here as reading 0. -/
def DataBuffer.getField (b : DataBuffer) (w : Nat) (name : List Nat) :
    Option (List Nat) :=
  match mapFind name b.type.fields with
  | none => none
  | some field =>
    if w ≠ field.size then none
    else some ((List.range w).map (fun i => b.data.getD (field.offset + i) 0))

/-- DataBuffer::setField, abstracted the same way: value bytes are written
at offset .. offset + w; positions past the end of the backing vector are
lost (out-of-bounds writes are undefined behavior in C++). -/
def DataBuffer.setField (b : DataBuffer) (w : Nat) (name : List Nat) (value : List Nat) :
    Option DataBuffer :=
  match mapFind name b.type.fields with
  | none => none
  | some field =>
    if w ≠ field.size then none
    else some ⟨b.type,
      (List.range b.data.length).map (fun i =>
        if field.offset ≤ i ∧ i < field.offset + w then value.getD (i - field.offset) 0
        else b.data.getD i 0)⟩

/-! ### Messages -/

/-- The numeric values of the MessageType enumerators (uint8_t): REQUEST,
RESPONSE, ERROR. The header stores the kind as this byte, and enum casts
from arbitrary bytes preserve the value, so the kind is modeled as Nat. -/
def REQUEST : Nat := 0

/-- MessageType::RESPONSE as its uint8_t value. -/
def RESPONSE : Nat := 1

/-- MessageType::ERROR as its uint8_t value. -/
def ERRORMSG : Nat := 2

/-- struct MessageHeader: kind byte, prototype handle byte, uint16 message
number. -/
structure MessageHeader where
  type : Nat
  prototypeHandle : Nat
  messageNumber : Nat
  deriving DecidableEq, Repr

/-- MessageHeader::fromSerialized: needs at least 4 bytes; the message
number is rebuilt big-endian as static_cast to uint16_t of
(serialized[2] shifted left by 8, bitwise-or serialized[3]). -/
def MessageHeader.fromSerialized (serialized : List Nat) : Option MessageHeader :=
  if serialized.length < 4 then none
  else some ⟨serialized.getD 0 0, serialized.getD 1 0,
    (((serialized.getD 2 0) <<< 8) ||| (serialized.getD 3 0)) % 65536⟩

/-- MessageHeader::insertSerialized: kind byte, handle byte, then the
message number big-endian (high byte is the number shifted right by 8,
each push static_cast to uint8_t). -/
def MessageHeader.insertSerialized (h : MessageHeader) : List Nat :=
  [h.type % 256, h.prototypeHandle % 256, (h.messageNumber >>> 8) % 256,
   h.messageNumber % 256]

/-- Message::_preamble, the bytes of R, D, S. -/
def preamble : List Nat := [82, 68, 83]

/-- Message::_preambleSize. -/
def preambleSize : Nat := 3

/-- Message::_completeHeaderSize = preamble size + sizeof(MessageHeader);
sizeof(MessageHeader) is 4 (uint8 kind, uint8 handle, uint16 number). -/
def completeHeaderSize : Nat := 7

/-- Message::_endSequence, the bytes of E, N, D. -/
def endSequence : List Nat := [69, 78, 68]

/-- Message::_endSequenceSize. -/
def endSequenceSize : Nat := 3

/-- Message::_completeEndSequenceSize. -/
def completeEndSequenceSize : Nat := 3

/-- class Message: a header and a data buffer. -/
structure Message where
  header : MessageHeader
  buffer : DataBuffer
  deriving DecidableEq, Repr

/-- Message default constructor: default header (REQUEST, handle 0,
number 0) and default buffer. -/
def defaultMessage : Message := ⟨⟨REQUEST, 0, 0⟩, DataBuffer.empty⟩

/-- Message::messageNumber. -/
def Message.messageNumber (m : Message) : Nat := m.header.messageNumber

/-- Message::serialize: preamble, serialized header, buffer bytes, end
sequence. -/
def Message.serialize (m : Message) : List Nat :=
  preamble ++ m.header.insertSerialized ++ m.buffer.data ++ endSequence

/-- Message::getPrototypeHandleFromBuffer: byte 3 of the frame, or the
reserved identifier when the frame is not longer than the preamble. -/
def Message.getPrototypeHandleFromBuffer (serialized : List Nat) : Nat :=
  if serialized.length ≤ preambleSize then RESERVED_ERROR_PROTOTYPE
  else serialized.getD preambleSize 0

/-- Message::fromSerialized, with the checks in source order: reserved
prototype, minimum length, preamble bytes, end-sequence bytes, header
parse (from bytes 3..7; when the frame is shorter than 7 bytes the C++
slice runs past the end, which the header length check then rejects),
exact total length, and buffer construction. -/
def Message.fromSerialized (proto : DataPrototype) (serialized : List Nat) :
    Option Message :=
  if proto.identifier = RESERVED_ERROR_PROTOTYPE then none
  else if serialized.length ≤ preambleSize then none
  else if serialized.take preambleSize ≠ preamble then none
  else if serialized.drop (serialized.length - endSequenceSize) ≠ endSequence then none
  else
    match MessageHeader.fromSerialized ((serialized.drop preambleSize).take 4) with
    | none => none
    | some header =>
      if serialized.length ≠ completeHeaderSize + proto.size + completeEndSequenceSize
      then none
      else
        match DataBuffer.createFromPrototype proto
            ((serialized.drop completeHeaderSize).take
              (serialized.length - completeHeaderSize - completeEndSequenceSize)) with
        | none => none
        | some buffer => some ⟨header, buffer⟩

/-- Message::operator==: compares kind, prototype handle, message number,
and the raw buffer bytes (not the buffer prototype). -/
def Message.beqOp (a b : Message) : Bool :=
  a.header.type = b.header.type ∧ a.header.prototypeHandle = b.header.prototypeHandle ∧
  a.header.messageNumber = b.header.messageNumber ∧ a.buffer.data = b.buffer.data

/-! ### The communication interface (exchange engine) -/

/-- Modulus of uint32 arithmetic (SentMessage.timeSent is uint32_t). -/
def U32_MOD : Nat := 2 ^ 32

/-- Modulus of uint64 arithmetic (time values are uint64_t). -/
def U64_MOD : Nat := 2 ^ 64

/-- uint64 subtraction a - b (two's-complement wraparound). -/
def u64sub (a b : Nat) : Nat := (a % U64_MOD + (U64_MOD - b % U64_MOD)) % U64_MOD

/-- CommunicationInterfaceOptions: maxRetries (uint8) and retryTimeout
(uint64). The time function is modeled by the now argument of each step. -/
structure CommOptions where
  maxRetries : Nat
  retryTimeout : Nat
  deriving DecidableEq, Repr

/-- Default CommunicationInterfaceOptions: 3 retries, 1000 ms timeout. -/
def CommOptions.default : CommOptions := ⟨3, 1000⟩

/-- struct CommunicationInterface::SentMessage: the pending-ack entry. -/
structure SentMessage where
  message : Message
  timeSent : Nat
  numRetries : Nat
  deriving DecidableEq, Repr

/-- The mutable state of a CommunicationInterface: options, the three
callback registries (schema-id key, callbacks as opaque ids in registration
order), the last-received timestamp, the prototype registry, and the
pending-ack table keyed by message number. The borrowed channel is modeled
by giving received bytes to each step and collecting sent messages. -/
structure CommState where
  options : CommOptions
  rxCallbacks : List (Nat × List Nat)
  txCallbacks : List (Nat × List Nat)
  errCallbacks : List (Nat × List Nat)
  lastMessageTime : Nat
  prototypes : List (Nat × DataPrototype)
  acksNeeded : List (Nat × SentMessage)
  deriving DecidableEq, Repr

/-- A freshly constructed CommunicationInterface with the given options. -/
def CommState.init (opts : CommOptions) : CommState :=
  ⟨opts, [], [], [], 0, [], []⟩

/-- CommunicationInterface::addCallback: getMap selects the registry by the
message kind (REQUEST to rx, RESPONSE to tx, ERROR to err, the unreachable
default to rx); the callback is appended to the list under the schema-id
key, creating the list if absent. -/
def addCallback (st : CommState) (type : Nat) (msgType : Nat) (cb : Nat) : CommState :=
  let update (m : List (Nat × List Nat)) : List (Nat × List Nat) :=
    mapInsert natLt type ((mapFind type m).getD [] ++ [cb]) m
  if msgType = REQUEST then { st with rxCallbacks := update st.rxCallbacks }
  else if msgType = RESPONSE then { st with txCallbacks := update st.txCallbacks }
  else if msgType = ERRORMSG then { st with errCallbacks := update st.errCallbacks }
  else { st with rxCallbacks := update st.rxCallbacks }

/-- CommunicationInterface::addPrototype: refuses the reserved identifier,
otherwise inserts or overwrites under the identifier. -/
def addPrototype (st : CommState) (proto : DataPrototype) : CommState :=
  if proto.identifier = RESERVED_ERROR_PROTOTYPE then st
  else { st with prototypes := mapInsert natLt proto.identifier proto st.prototypes }

/-- CommunicationInterface::sendMessage: the frame is written to the
channel unconditionally; if an ack is required and the kind is REQUEST, a
pending entry keyed by the message number is inserted with timeSent = 0 and
numRetries = 0 (the literal SentMessage initializer in the source); an ack
required on a RESPONSE only logs an error. Returns the new state and the
messages written to the channel. -/
def sendMessage (st : CommState) (message : Message) (ackRequired : Bool) :
    CommState × List Message :=
  if ackRequired ∧ message.header.type = REQUEST then
    ({ st with acksNeeded :=
        mapInsert natLt message.header.messageNumber ⟨message, 0, 0⟩ st.acksNeeded },
     [message])
  else (st, [message])

/-- The final statements of listen: look up the rxCallbacks registry under
the message kind byte (the source indexes _rxCallbacks by message.type())
and invoke every callback found there, in list order. -/
def dispatchCallbacks (st2 : CommState) (message : Message) :
    CommState × List (Nat × Message) :=
  match mapFind message.header.type st2.rxCallbacks with
  | none => (st2, [])
  | some cbs => (st2, cbs.map (fun c => (c, message)))

/-- The ack-clearing statement of listen followed by the dispatch: when the
message kind is RESPONSE and its message number is in the pending table,
that entry is erased. -/
def dispatchMessage (st1 : CommState) (message : Message) :
    CommState × List (Nat × Message) :=
  dispatchCallbacks
    (if message.header.type = RESPONSE then
      (if (mapFind message.messageNumber st1.acksNeeded).isSome then
        { st1 with acksNeeded := mapErase message.messageNumber st1.acksNeeded }
      else st1)
    else st1)
    message

/-- CommunicationInterface::listen, one receive step. data is what the
channel receive() returned, now is the time function's current value.
Returns the new state and the callback invocations (id, message) in order.
The prototype registry is consulted under getPrototypeHandleFromBuffer of
the frame, which is byte 3 (the kind byte of a well-formed frame). On a
parse error the source still calls value() on the error Result, so the
default-constructed Message is processed. The last-received timestamp is
stamped before the ack-clearing and dispatch. -/
def listen (st : CommState) (data : List Nat) (now : Nat) :
    CommState × List (Nat × Message) :=
  if data.length = 0 then (st, [])
  else
    match mapFind (Message.getPrototypeHandleFromBuffer data) st.prototypes with
    | none => (st, [])
    | some proto =>
      dispatchMessage { st with lastMessageTime := now }
        ((Message.fromSerialized proto data).getD defaultMessage)

/-- One pending-ack entry's treatment inside the tick sweep: if the uint64
difference now - timeSent exceeds the retry timeout, either resend (the
source calls sendMessage with ackRequired = false, which only writes the
frame) and stamp timeSent = now (truncated to uint32) and bump numRetries
(uint8), or mark the entry for removal. Returns the updated entry, the
frames sent, and whether the key is pushed onto toRemove. -/
def tickEntry (opts : CommOptions) (now : Nat) (e : SentMessage) :
    SentMessage × List Message × Bool :=
  if u64sub now e.timeSent > opts.retryTimeout then
    if e.numRetries < opts.maxRetries then
      (⟨e.message, now % U32_MOD, (e.numRetries + 1) % 256⟩, [e.message], false)
    else (e, [], true)
  else (e, [], false)

/-- The per-entry results of the tick sweep, in table (key) order. -/
def sweepEntries (opts : CommOptions) (now : Nat) (acks : List (Nat × SentMessage)) :
    List (Nat × (SentMessage × List Message × Bool)) :=
  acks.map (fun kv => (kv.1, tickEntry opts now kv.2))

/-- The pending-ack table and channel writes produced by the ack sweep of
tick, starting from the post-listen state. The source constructs toRemove
as std::vector of uint16_t with initial size acksNeeded.size(), i.e. that
many zero elements, and push_back appends the expired keys after them;
every number in toRemove is then erased from the table. -/
def tickSweep (st1 : CommState) (now : Nat) : CommState × List Message :=
  ({ st1 with acksNeeded :=
      ((List.replicate st1.acksNeeded.length 0 ++
        ((sweepEntries st1.options now st1.acksNeeded).filter
          (fun (kr : Nat × (SentMessage × List Message × Bool)) => kr.2.2.2)).map
          (fun (kr : Nat × (SentMessage × List Message × Bool)) => kr.1)).foldl
        (fun m k => mapErase k m)
        ((sweepEntries st1.options now st1.acksNeeded).map
          (fun (kr : Nat × (SentMessage × List Message × Bool)) => (kr.1, kr.2.1)))) },
   (sweepEntries st1.options now st1.acksNeeded).flatMap
     (fun (kr : Nat × (SentMessage × List Message × Bool)) => kr.2.2.1))

/-- CommunicationInterface::tick: listen once, then sweep the pending-ack
table. Returns the new state, the frames written to the channel, and the
callback invocations. -/
def tick (st : CommState) (data : List Nat) (now : Nat) :
    CommState × List Message × List (Nat × Message) :=
  ((tickSweep (listen st data now).1 now).1,
   (tickSweep (listen st data now).1 now).2,
   (listen st data now).2)

/-! ### Traces of engine steps -/

/-- One interaction with the engine: a user call to sendMessage, a call to
tick (with the bytes the channel returns and the current time), or a direct
call to listen. -/
inductive Step where
  | send (m : Message) (ack : Bool)
  | tk (data : List Nat) (now : Nat)
  | ls (data : List Nat) (now : Nat)
  deriving DecidableEq, Repr

/-- Run one step; the second component is the frames written to the
channel during the step. -/
def runStep (st : CommState) : Step → CommState × List Message
  | .send m a => sendMessage st m a
  | .tk d n => ((tick st d n).1, (tick st d n).2.1)
  | .ls d n => ((listen st d n).1, [])

/-- Run a list of steps, concatenating the channel transcripts. -/
def runTrace (st : CommState) : List Step → CommState × List Message
  | [] => (st, [])
  | s :: rest =>
    ((runTrace (runStep st s).1 rest).1,
     (runStep st s).2 ++ (runTrace (runStep st s).1 rest).2)

/-- The number of transmissions of a given message in a channel
transcript. -/
def countMsg (q : Message) (l : List Message) : Nat :=
  (l.filter (fun m => m = q)).length

/-! ### General lemmas -/

/-- Recombining a shifted high byte with a low byte below 256. -/
theorem lor_shift_byte (a b : Nat) (hb : b < 256) : (a <<< 8) ||| b = a * 256 + b := by
  apply Nat.eq_of_testBit_eq
  intro i
  rw [Nat.testBit_lor, Nat.testBit_shiftLeft, Nat.testBit_to_div_mod, Nat.testBit_to_div_mod,
      Nat.testBit_to_div_mod]
  rcases Nat.lt_or_ge i 8 with h | h
  · rw [show (decide (i ≥ 8)) = false by simp [Nat.not_le.mpr h]]
    simp only [Bool.false_and, Bool.false_or]
    congr 2
    have h28 : (2 : Nat) ^ (7 - i) * 2 * 2 ^ i = 256 := by
      have h2 : 7 - i + 1 + i = 8 := by omega
      calc (2 : Nat) ^ (7 - i) * 2 * 2 ^ i = 2 ^ (7 - i + 1 + i) := by ring
      _ = 256 := by rw [h2]; norm_num
    have hsplit : a * 256 + b = b + a * 2 ^ (7 - i) * 2 * 2 ^ i := by
      have ha : a * 2 ^ (7 - i) * 2 * 2 ^ i = a * 256 := by
        calc a * 2 ^ (7 - i) * 2 * 2 ^ i = a * (2 ^ (7 - i) * 2 * 2 ^ i) := by ring
        _ = a * 256 := by rw [h28]
      omega
    rw [hsplit, Nat.add_mul_div_right _ _ (Nat.pos_pow_of_pos i (by norm_num)),
        Nat.add_mul_mod_self_right]
  · rw [show (decide (i ≥ 8)) = true by simp [h]]
    simp only [Bool.true_and]
    have hb8 : b < 2 ^ 8 := by
      calc b < 256 := hb
      _ ≤ 2 ^ 8 := by norm_num
    have hbf : (decide (b / 2 ^ i % 2 = 1)) = false := by
      have hlt : b / 2 ^ i = 0 := by
        apply Nat.div_eq_of_lt
        calc b < 2 ^ 8 := hb8
        _ ≤ 2 ^ i := Nat.pow_le_pow_right (by norm_num) h
      simp [hlt]
    rw [hbf, Bool.or_false]
    congr 2
    have hi : (2 : Nat) ^ i = 2 ^ 8 * 2 ^ (i - 8) := by
      rw [← pow_add]
      congr 1
      omega
    rw [hi, ← Nat.div_div_eq_div_mul]
    congr 1
    have hsplit : a * 256 + b = b + a * 2 ^ 8 := by
      have h8 : (2 : Nat) ^ 8 = 256 := by norm_num
      omega
    rw [hsplit, Nat.add_mul_div_right _ _ (by norm_num : (0 : Nat) < 2 ^ 8),
        Nat.div_eq_of_lt hb8, Nat.zero_add]

/-! ### Claim C2: message round-trip through the frame codec -/

/-- C2: for every message whose prototype has a non-reserved identifier and
whose payload has exactly the prototype's size, parsing the serialized
frame with that prototype succeeds and yields a message equal to the
original under Message::operator== (same kind, prototype handle, message
number, and payload bytes). The range hypotheses state that the header
fields hold the values a uint8 kind, uint8 handle and uint16 number can. -/
theorem c2_message_roundtrip (proto : DataPrototype) (m : Message)
    (hid : proto.identifier ≠ RESERVED_ERROR_PROTOTYPE)
    (hlen : m.buffer.data.length = proto.size)
    (ht : m.header.type < 256)
    (hh : m.header.prototypeHandle < 256)
    (hn : m.header.messageNumber < 65536) :
    ∃ m', Message.fromSerialized proto (Message.serialize m) = some m' ∧
      Message.beqOp m' m = true := by
  obtain ⟨⟨t, h, n⟩, ⟨btype, bdata⟩⟩ := m
  simp only [Message.beqOp] at *
  have hser : Message.serialize ⟨⟨t, h, n⟩, ⟨btype, bdata⟩⟩ =
      [82, 68, 83, t % 256, h % 256, (n >>> 8) % 256, n % 256] ++ (bdata ++ [69, 78, 68]) := by
    simp [Message.serialize, MessageHeader.insertSerialized, preamble, endSequence]
  have hlen10 : (Message.serialize ⟨⟨t, h, n⟩, ⟨btype, bdata⟩⟩).length = 10 + bdata.length := by
    rw [hser]
    simp
    omega
  refine ⟨⟨⟨t, h, n⟩, ⟨proto, bdata⟩⟩, ?_, by simp⟩
  unfold Message.fromSerialized
  rw [if_neg hid, if_neg (by rw [hlen10]; unfold preambleSize; omega),
      if_neg (by rw [hser]; intro hc; exact hc rfl)]
  have hend : (Message.serialize ⟨⟨t, h, n⟩, ⟨btype, bdata⟩⟩).drop
      ((Message.serialize ⟨⟨t, h, n⟩, ⟨btype, bdata⟩⟩).length - endSequenceSize) =
      endSequence := by
    rw [hser, show ([82, 68, 83, t % 256, h % 256, (n >>> 8) % 256, n % 256] ++
        (bdata ++ [69, 78, 68])) =
        (([82, 68, 83, t % 256, h % 256, (n >>> 8) % 256, n % 256] ++ bdata) ++ [69, 78, 68])
        from by simp]
    have hl : (([82, 68, 83, t % 256, h % 256, (n >>> 8) % 256, n % 256] ++ bdata) ++
        [69, 78, 68]).length - endSequenceSize =
        ([82, 68, 83, t % 256, h % 256, (n >>> 8) % 256, n % 256] ++ bdata).length := by
      simp [endSequenceSize]
    rw [hl, List.drop_left]
    rfl
  rw [if_neg (by rw [hend]; intro hc; exact hc rfl)]
  have hhdr : ((Message.serialize ⟨⟨t, h, n⟩, ⟨btype, bdata⟩⟩).drop preambleSize).take 4 =
      [t % 256, h % 256, (n >>> 8) % 256, n % 256] := by
    rw [hser]
    rfl
  rw [hhdr]
  have hnum : ((((n >>> 8) % 256) <<< 8) ||| (n % 256)) % 65536 = n := by
    have hdiv : n >>> 8 = n / 256 := by
      rw [Nat.shiftRight_eq_div_pow]
    have hdivlt : n / 256 < 256 := by omega
    rw [hdiv, Nat.mod_eq_of_lt hdivlt,
        lor_shift_byte _ _ (Nat.mod_lt _ (by norm_num))]
    omega
  have hparse : MessageHeader.fromSerialized [t % 256, h % 256, (n >>> 8) % 256, n % 256] =
      some ⟨t, h, n⟩ := by
    have e0 : ([t % 256, h % 256, (n >>> 8) % 256, n % 256] : List Nat).getD 0 0 = t % 256 := rfl
    have e1 : ([t % 256, h % 256, (n >>> 8) % 256, n % 256] : List Nat).getD 1 0 = h % 256 := rfl
    have e2 : ([t % 256, h % 256, (n >>> 8) % 256, n % 256] : List Nat).getD 2 0 =
        (n >>> 8) % 256 := rfl
    have e3 : ([t % 256, h % 256, (n >>> 8) % 256, n % 256] : List Nat).getD 3 0 = n % 256 := rfl
    unfold MessageHeader.fromSerialized
    rw [if_neg (by simp), e0, e1, e2, e3, Nat.mod_eq_of_lt ht, Nat.mod_eq_of_lt hh, hnum]
  simp only [hparse]
  rw [if_neg (by rw [hlen10]; unfold completeHeaderSize completeEndSequenceSize; omega)]
  have hslice : ((Message.serialize ⟨⟨t, h, n⟩, ⟨btype, bdata⟩⟩).drop completeHeaderSize).take
      ((Message.serialize ⟨⟨t, h, n⟩, ⟨btype, bdata⟩⟩).length - completeHeaderSize -
        completeEndSequenceSize) = bdata := by
    rw [hlen10, hser]
    unfold completeHeaderSize completeEndSequenceSize
    have hdrop7 : ([82, 68, 83, t % 256, h % 256, (n >>> 8) % 256, n % 256] ++
        (bdata ++ [69, 78, 68])).drop 7 = bdata ++ [69, 78, 68] := rfl
    rw [hdrop7, show 10 + bdata.length - 7 - 3 = bdata.length from by omega, List.take_left]
  rw [hslice]
  have hbuf : DataBuffer.createFromPrototype proto bdata = some ⟨proto, bdata⟩ := by
    unfold DataBuffer.createFromPrototype
    rw [if_neg hid, if_neg (by rw [hlen]; simp)]
  simp only [hbuf]

/-- The prototype with identifier 3 and one UINT16 field x for the C2
witness. -/
def c2proto : DataPrototype := (DataPrototype.new 3).addField [120] .UINT16

/-- A request over c2proto with message number 7 and payload bytes
0x34 0x12. -/
def c2msg : Message := ⟨⟨REQUEST, 3, 7⟩, ⟨c2proto, [52, 18]⟩⟩

/-- C2 witness: the concrete round trip of a one-field message. -/
theorem c2_message_roundtrip_witness :
    ∃ m', Message.fromSerialized c2proto (Message.serialize c2msg) = some m' ∧
      Message.beqOp m' c2msg = true :=
  c2_message_roundtrip c2proto c2msg (by decide) (by decide) (by decide) (by decide) (by decide)

/-! ### Claim C7: schema serialization round-trip -/

/-- The prototype with identifier 1 and the single field a of type UINT8. -/
def c7proto : DataPrototype := (DataPrototype.new 1).addField [97] .UINT8

/-- C7 counterexample: serializeFormat of a one-field prototype produces
the five bytes id, count, name length, name, type -- and
fromSerializedFormat rejects exactly this stream as too short, because the
bounds check offset + nameSize + 1 >= length fires on the last field whose
type byte is the final byte of the stream. The claimed round trip fails for
every prototype with at least one field. -/
theorem c7_schema_roundtrip_fails :
    DataPrototype.serializeFormat c7proto = [1, 1, 1, 97, 0] ∧
    DataPrototype.fromSerializedFormat (DataPrototype.serializeFormat c7proto) = none := by
  constructor <;> rfl

/-! ### Claim C9: field bounds after replacement -/

/-- A prototype reached by addField a UINT32, addField b UINT32, then
replacing a with UINT8. -/
def c9proto : DataPrototype :=
  (((DataPrototype.new 1).addField [97] .UINT32).addField [98] .UINT32).addField [97] .UINT8

/-- C9 counterexample: after replacing field a (width 4) by a UINT8, the
prototype size is 5 but field b keeps offset 4 with width 4, so
offset + width = 8 > 5; getField on a buffer of this prototype passes the
width check and reads the four bytes at offsets 4..7 of a 5-byte backing
store, three of them past its end. -/
theorem c9_field_out_of_bounds :
    c9proto.size = 5 ∧
    c9proto.findField [98] = some ⟨4, .UINT32⟩ ∧
    4 + getSizeOfType .UINT32 > c9proto.size ∧
    (DataBuffer.ofPrototype c9proto).data.length = 5 ∧
    (DataBuffer.ofPrototype c9proto).getField 4 [98] = some [0, 0, 0, 0] := by
  refine ⟨rfl, rfl, by decide, rfl, rfl⟩

/-! ### Claim C4: the pending entry written by sendMessage -/

/-- A registered prototype with identifier 5 and no fields. -/
def c4proto : DataPrototype := DataPrototype.new 5

/-- A request message over c4proto with message number 7. -/
def c4req : Message := ⟨⟨REQUEST, 5, 7⟩, DataBuffer.ofPrototype c4proto⟩

/-- C4 counterexample: sending a request with ack required inserts a
pending entry whose timeSent field is the literal 0 from the SentMessage
initializer, not the current value of the time function; the entry equals
(message, 0, 0) no matter what the clock reads at the moment of sending. -/
theorem c4_timeSent_is_zero :
    (sendMessage (CommState.init CommOptions.default) c4req true).1.acksNeeded =
      [(7, ⟨c4req, 0, 0⟩)] := rfl

/-! ### Claim C1: callback dispatch for (schema id, kind) -/

/-- A registered prototype with identifier 0 and no fields. -/
def c1proto0 : DataPrototype := DataPrototype.new 0

/-- A registered prototype with identifier 5 and no fields. -/
def c1proto5 : DataPrototype := DataPrototype.new 5

/-- An engine with prototypes 0 and 5 registered, callback 1 registered via
addCallback for (schema id 5, REQUEST), and callback 2 registered via
addCallback for (schema id 0, REQUEST). -/
def c1state : CommState :=
  addCallback
    (addCallback
      (addPrototype (addPrototype (CommState.init CommOptions.default) c1proto0) c1proto5)
      5 REQUEST 1)
    0 REQUEST 2

/-- A well-formed frame of kind REQUEST, schema id byte 5, sequence 7, with
an empty payload. -/
def c1frame : List Nat := [82, 68, 83, 0, 5, 0, 7, 69, 78, 68]

/-- The message the engine obtains from c1frame. -/
def c1msg : Message := ⟨⟨REQUEST, 5, 7⟩, ⟨c1proto0, []⟩⟩

/-- C1 counterexample: the frame parses successfully (the engine resolves
the prototype registry under frame byte 3, the kind byte, so it parses
under the prototype registered as 0) into a REQUEST carrying schema id 5
and sequence 7, yet the receive step invokes callback 2 -- the one
registered for (schema id 0, REQUEST) -- and not callback 1, the one
registered for (schema id 5, REQUEST), because the source indexes
_rxCallbacks by the message kind value instead of the schema id. -/
theorem c1_dispatch_counterexample :
    Message.fromSerialized c1proto0 c1frame = some c1msg ∧
    (listen c1state c1frame 99).2 = [(2, c1msg)] := by
  constructor <;> rfl

/-! ### Claim C5: malformed frames are not silently dropped -/

/-- An engine with prototype 5 registered, callback 1 for (schema 5,
REQUEST), and callback 9 for (schema 0, REQUEST). -/
def c5state : CommState :=
  addCallback
    (addCallback (addPrototype (CommState.init CommOptions.default) (DataPrototype.new 5))
      5 REQUEST 1)
    0 REQUEST 9

/-- A frame with a corrupt preamble whose byte 3 (the position the engine
peeks for the prototype lookup) is the registered id 5. -/
def c5frame : List Nat := [0, 0, 0, 5, 69, 78, 68]

/-- C5 counterexample: the frame fails parsing (bad preamble), yet listen
calls value() on the error Result and dispatches the resulting
default-constructed message (kind REQUEST, number 0) to the callbacks
registered under key 0, so callback 9 runs; the pending-ack table is
unchanged, but the frame is not dropped without invoking callbacks as the
claim states. -/
theorem c5_malformed_frame_dispatches :
    Message.fromSerialized (DataPrototype.new 5) c5frame = none ∧
    (listen c5state c5frame 3).2 = [(9, defaultMessage)] ∧
    (listen c5state c5frame 3).1.acksNeeded = c5state.acksNeeded := by
  refine ⟨rfl, rfl, rfl⟩

/-! ### Claim C10: tick always erases the entry keyed 0 -/

/-- Erasing any key preserves the absence of an unrelated key. -/
theorem mapFind_none_mapErase {κ α : Type} [DecidableEq κ] (k k' : κ) :
    ∀ l : List (κ × α), mapFind k l = none → mapFind k (mapErase k' l) = none := by
  intro l
  induction l with
  | nil => intro _; rfl
  | cons hd tl ih =>
    intro h
    unfold mapFind at h
    unfold mapErase
    by_cases hk : k = hd.1
    · rw [if_pos hk] at h
      exact absurd h (by simp)
    · rw [if_neg hk] at h
      by_cases hk' : k' = hd.1
      · obtain ⟨a, b⟩ := hd
        rw [if_pos hk']
        exact h
      · obtain ⟨a, b⟩ := hd
        rw [if_neg hk']
        unfold mapFind
        rw [if_neg hk]
        exact ih h

/-- Absence of a key survives a fold of erasures. -/
theorem mapFind_none_foldl_erase {κ α : Type} [DecidableEq κ] (k : κ) :
    ∀ (ks : List κ) (l : List (κ × α)), mapFind k l = none →
      mapFind k (ks.foldl (fun m k' => mapErase k' m) l) = none := by
  intro ks
  induction ks with
  | nil => intro l h; exact h
  | cons hd tl ih =>
    intro l h
    exact ih (mapErase hd l) (mapFind_none_mapErase k hd l h)

/-- Erasing a present key shortens the list by one. -/
theorem mapErase_length_of_found {κ α : Type} [DecidableEq κ] (k : κ) :
    ∀ l : List (κ × α), (mapFind k l).isSome → (mapErase k l).length + 1 = l.length := by
  intro l
  induction l with
  | nil => intro h; exact absurd h (by simp [mapFind])
  | cons hd tl ih =>
    intro h
    unfold mapErase
    by_cases hk : k = hd.1
    · rw [if_pos hk]
      simp
    · obtain ⟨a, b⟩ := hd
      rw [if_neg hk]
      unfold mapFind at h
      rw [if_neg hk] at h
      simp only [List.length_cons]
      rw [← ih h]

/-- Erasing a key as many times as the list is long removes every entry
with that key. -/
theorem mapFind_foldl_erase_replicate {κ α : Type} [DecidableEq κ] (k : κ) :
    ∀ (n : Nat) (l : List (κ × α)), l.length ≤ n →
      mapFind k ((List.replicate n k).foldl (fun m k' => mapErase k' m) l) = none := by
  intro n
  induction n with
  | zero =>
    intro l h
    have : l = [] := List.length_eq_zero.mp (Nat.le_zero.mp h)
    rw [this]
    rfl
  | succ n ih =>
    intro l h
    rw [List.replicate_succ, List.foldl_cons]
    by_cases hf : (mapFind k l).isSome
    · apply ih
      have := mapErase_length_of_found k l hf
      omega
    · have hnone : mapFind k l = none := by
        rcases hm : mapFind k l with _ | v
        · rfl
        · rw [hm] at hf; exact absurd rfl hf
      rw [show mapErase k l = (List.replicate 0 k).foldl (fun m k' => mapErase k' m) (mapErase k l)
        from rfl]
      apply mapFind_none_foldl_erase
      exact mapFind_none_mapErase k k l hnone

/-- C10: on every tick whose pending-ack table is non-empty after the
receive step, the entry keyed by message number 0 is gone from the table
when tick returns, whatever the clock value, the retry timeout, and the
retry counts are: the toRemove vector is constructed with
acksNeeded.size() zero elements, and the removal loop erases key 0 for
each of them. -/
theorem c10_tick_erases_entry_zero (st : CommState) (data : List Nat) (now : Nat)
    (h : (listen st data now).1.acksNeeded ≠ []) :
    mapFind 0 (tick st data now).1.acksNeeded = none := by
  unfold tick tickSweep
  simp only []
  rw [List.foldl_append]
  apply mapFind_none_foldl_erase
  apply mapFind_foldl_erase_replicate
  unfold sweepEntries
  simp

/-- A pending entry under key 0 for the C10 witness. -/
def c10entry : SentMessage := ⟨⟨⟨REQUEST, 5, 0⟩, DataBuffer.ofPrototype c4proto⟩, 0, 0⟩

/-- An engine state with pending entries keyed 0 and 3. -/
def c10state : CommState :=
  { CommState.init CommOptions.default with acksNeeded := [(0, c10entry), (3, c10entry)] }

/-- C10 witness: at time 10 with timeout 1000 nothing has expired and no
retries have been spent, yet tick removes the entry keyed 0 (and keeps the
entry keyed 3). -/
theorem c10_tick_erases_entry_zero_witness :
    mapFind 0 (tick c10state [] 10).1.acksNeeded = none :=
  c10_tick_erases_entry_zero c10state [] 10 (by decide)

/-! ### Claim C6: a parsed Response clears its pending entry -/

/-- A successfully parsed frame is longer than the preamble. -/
theorem fromSerialized_some_length (p : DataPrototype) (d : List Nat) (m : Message)
    (h : Message.fromSerialized p d = some m) : preambleSize < d.length := by
  unfold Message.fromSerialized at h
  split_ifs at h with h1 h2 h3 h4
  all_goals first | omega | exact absurd h (by simp)

/-- Erasing an absent key changes nothing. -/
theorem mapErase_of_find_none {κ α : Type} [DecidableEq κ] (k : κ) :
    ∀ l : List (κ × α), mapFind k l = none → mapErase k l = l := by
  intro l
  induction l with
  | nil => intro _; rfl
  | cons hd tl ih =>
    intro h
    unfold mapFind at h
    unfold mapErase
    by_cases hk : k = hd.1
    · rw [if_pos hk] at h
      exact absurd h (by simp)
    · obtain ⟨a, b⟩ := hd
      rw [if_neg hk] at h
      rw [if_neg hk, ih h]

/-- The state dispatchCallbacks returns is the state it was given. -/
theorem dispatchCallbacks_fst (st2 : CommState) (m : Message) :
    (dispatchCallbacks st2 m).1 = st2 := by
  unfold dispatchCallbacks
  split <;> rfl

/-- The events dispatchCallbacks produces: the registered list under the
message kind key (empty when absent), paired with the message. -/
theorem dispatchCallbacks_snd (st2 : CommState) (m : Message) :
    (dispatchCallbacks st2 m).2 =
      ((mapFind m.header.type st2.rxCallbacks).getD []).map (fun c => (c, m)) := by
  unfold dispatchCallbacks
  rcases h : mapFind m.header.type st2.rxCallbacks with _ | cbs <;> simp [h]

/-- For a RESPONSE, dispatchMessage leaves the table with the entry keyed
by the message number erased (erasing an absent key is a no-op). -/
theorem dispatchMessage_acks_response (st1 : CommState) (m : Message)
    (ht : m.header.type = RESPONSE) :
    (dispatchMessage st1 m).1.acksNeeded = mapErase m.messageNumber st1.acksNeeded := by
  unfold dispatchMessage
  rw [dispatchCallbacks_fst, if_pos ht]
  by_cases hs : (mapFind m.messageNumber st1.acksNeeded).isSome
  · rw [if_pos hs]
  · rw [if_neg hs]
    have hnone : mapFind m.messageNumber st1.acksNeeded = none := by
      rcases hm : mapFind m.messageNumber st1.acksNeeded with _ | v
      · rfl
      · rw [hm] at hs; simp at hs
    rw [mapErase_of_find_none _ _ hnone]

/-- The events dispatchMessage produces do not depend on the pending-ack
table. -/
theorem dispatchMessage_snd (st1 : CommState) (m : Message) :
    (dispatchMessage st1 m).2 =
      ((mapFind m.header.type st1.rxCallbacks).getD []).map (fun c => (c, m)) := by
  unfold dispatchMessage
  rw [dispatchCallbacks_snd]
  split_ifs <;> rfl

/-- C6: whenever listen receives bytes that resolve a registered prototype
and parse into a message of kind RESPONSE with message number s, the
pending-ack table afterwards is exactly the old table with the entry keyed
s erased -- the erasure is keyed by the sequence alone, never by the schema
id; when no entry with key s exists the table is unchanged; and in either
case the callbacks invoked are those the dispatch computes from the message
alone, independent of the table. -/
theorem c6_response_clears_pending (st : CommState) (data : List Nat) (now : Nat)
    (proto : DataPrototype) (msg : Message)
    (hproto : mapFind (Message.getPrototypeHandleFromBuffer data) st.prototypes = some proto)
    (hparse : Message.fromSerialized proto data = some msg)
    (htype : msg.header.type = RESPONSE) :
    (listen st data now).1.acksNeeded = mapErase msg.messageNumber st.acksNeeded ∧
    (mapFind msg.messageNumber st.acksNeeded = none →
      (listen st data now).1.acksNeeded = st.acksNeeded) ∧
    (listen st data now).2 =
      ((mapFind msg.header.type st.rxCallbacks).getD []).map (fun c => (c, msg)) := by
  have hlen : ¬ data.length = 0 := by
    have := fromSerialized_some_length proto data msg hparse
    unfold preambleSize at this
    omega
  unfold listen
  rw [if_neg hlen]
  simp only [hproto, hparse, Option.getD_some]
  refine ⟨?_, ?_, ?_⟩
  · rw [dispatchMessage_acks_response _ _ htype]
  · intro hnone
    rw [dispatchMessage_acks_response _ _ htype]
    exact mapErase_of_find_none _ _ hnone
  · rw [dispatchMessage_snd]

/-- The prototype registered under identifier 1 for the C6 witness. -/
def c6proto : DataPrototype := DataPrototype.new 1

/-- An engine with prototype 1 registered (the engine peeks frame byte 3,
the kind byte, so a RESPONSE resolves prototype 1), pending entries keyed 7
and 9, and a callback for key 1. -/
def c6state : CommState :=
  { addCallback (addPrototype (CommState.init CommOptions.default) c6proto) 1 REQUEST 4 with
      acksNeeded := [(7, c10entry), (9, c10entry)] }

/-- A well-formed RESPONSE frame with schema id byte 5 and sequence 7. -/
def c6frame : List Nat := [82, 68, 83, 1, 5, 0, 7, 69, 78, 68]

/-- The message c6frame parses into. -/
def c6msg : Message := ⟨⟨RESPONSE, 5, 7⟩, ⟨c6proto, []⟩⟩

/-- C6 witness: receiving the RESPONSE (whose schema id byte 5 differs from
every registered schema) erases exactly the pending entry keyed by its
sequence 7, and the callbacks fired are those of the dispatch. -/
theorem c6_response_clears_pending_witness :
    (listen c6state c6frame 42).1.acksNeeded = mapErase 7 c6state.acksNeeded ∧
    (mapFind 7 c6state.acksNeeded = none →
      (listen c6state c6frame 42).1.acksNeeded = c6state.acksNeeded) ∧
    (listen c6state c6frame 42).2 =
      ((mapFind 1 c6state.rxCallbacks).getD []).map (fun c => (c, c6msg)) :=
  c6_response_clears_pending c6state c6frame 42 c6proto c6msg rfl rfl rfl

/-! ### Claim C8: addField on an existing name -/

/-- The sum of the field widths of a field map. -/
def fieldsSum (l : List (List Nat × DataField)) : Nat :=
  (l.map (fun f => f.2.size)).sum

/-- The keys of an association list are strictly increasing under lt, the
std::map invariant. -/
def PairwiseLt {κ α : Type} (lt : κ → κ → Bool) (l : List (κ × α)) : Prop :=
  l.Pairwise (fun a b => lt a.1 b.1 = true)

/-- lexLt is irreflexive. -/
theorem lexLt_irrefl : ∀ a : List Nat, lexLt a a = false := by
  intro a
  induction a with
  | nil => rfl
  | cons hd tl ih =>
    unfold lexLt
    simp [ih]

/-- lexLt is transitive. -/
theorem lexLt_trans : ∀ a b c : List Nat, lexLt a b = true → lexLt b c = true →
    lexLt a c = true := by
  intro a
  induction a with
  | nil =>
    intro b c hab hbc
    cases b with
    | nil => exact absurd hab (by simp [lexLt])
    | cons bh bt =>
      cases c with
      | nil => exact absurd hbc (by simp [lexLt])
      | cons ch ct => rfl
  | cons ah at' ih =>
    intro b c hab hbc
    cases b with
    | nil => exact absurd hab (by simp [lexLt])
    | cons bh bt =>
      cases c with
      | nil => exact absurd hbc (by simp [lexLt])
      | cons ch ct =>
        unfold lexLt at hab hbc ⊢
        by_cases h1 : ah < bh
        · by_cases h2 : bh < ch
          · rw [if_pos (by omega)]
          · rw [if_pos h1] at hab
            rw [if_neg h2] at hbc
            by_cases h3 : ch < bh
            · rw [if_pos h3] at hbc
              exact absurd hbc (by simp)
            · rw [if_neg h3] at hbc
              have : bh = ch := by omega
              rw [if_pos (by omega)]
        · rw [if_neg h1] at hab
          by_cases h1' : bh < ah
          · rw [if_pos h1'] at hab
            exact absurd hab (by simp)
          · rw [if_neg h1'] at hab
            have heq : ah = bh := by omega
            by_cases h2 : bh < ch
            · rw [if_pos (by omega)]
            · rw [if_neg h2] at hbc
              by_cases h3 : ch < bh
              · rw [if_pos h3] at hbc
                exact absurd hbc (by simp)
              · rw [if_neg h3] at hbc
                rw [if_neg (by omega), if_neg (by omega)]
                exact ih bt ct hab hbc

/-- A found key is a key of the list. -/
theorem mapFind_some_mem {κ α : Type} [DecidableEq κ] (k : κ) (v : α) :
    ∀ l : List (κ × α), mapFind k l = some v → (k, v) ∈ l := by
  intro l
  induction l with
  | nil => intro h; exact absurd h (by simp [mapFind])
  | cons hd tl ih =>
    intro h
    unfold mapFind at h
    by_cases hk : k = hd.1
    · rw [if_pos hk] at h
      obtain ⟨a, b⟩ := hd
      have hv : b = v := by simpa using h
      simp only at hk
      rw [hk, ← hv]
      exact List.mem_cons_self _ _
    · rw [if_neg hk] at h
      exact List.mem_cons_of_mem _ (ih h)

/-- In a key-sorted field map, inserting under a name that is already
present keeps the length. -/
theorem mapInsert_found_length (name : List Nat) (v : DataField) :
    ∀ l : List (List Nat × DataField), PairwiseLt lexLt l → (mapFind name l).isSome →
      (mapInsert lexLt name v l).length = l.length := by
  intro l
  induction l with
  | nil => intro _ h; exact absurd h (by simp [mapFind])
  | cons hd tl ih =>
    intro hsort hfound
    unfold mapInsert
    by_cases hlt : lexLt name hd.1
    · exfalso
      unfold mapFind at hfound
      by_cases hk : name = hd.1
      · rw [hk] at hlt
        rw [lexLt_irrefl] at hlt
        exact absurd hlt (by simp)
      · rw [if_neg hk] at hfound
        rcases hm : mapFind name tl with _ | w
        · rw [hm] at hfound; exact absurd hfound (by simp)
        · have hmem := mapFind_some_mem name w tl hm
          have hrel := (List.pairwise_cons.mp hsort).1 (name, w) hmem
          have : lexLt name name = true := lexLt_trans _ _ _ hlt hrel
          rw [lexLt_irrefl] at this
          exact absurd this (by simp)
    · rw [if_neg hlt]
      by_cases hk : name = hd.1
      · rw [if_pos hk]
        rfl
      · rw [if_neg hk]
        simp only [List.length_cons]
        have hfound' : (mapFind name tl).isSome := by
          unfold mapFind at hfound
          rw [if_neg hk] at hfound
          exact hfound
        rw [ih (List.pairwise_cons.mp hsort).2 hfound']

/-- In a key-sorted field map, inserting under a present name exchanges the
old width for the new one in the width sum. -/
theorem mapInsert_found_sum (name : List Nat) (v w : DataField) :
    ∀ l : List (List Nat × DataField), PairwiseLt lexLt l → mapFind name l = some w →
      fieldsSum (mapInsert lexLt name v l) + w.size = fieldsSum l + v.size := by
  intro l
  induction l with
  | nil => intro _ h; exact absurd h (by simp [mapFind])
  | cons hd tl ih =>
    intro hsort hfound
    unfold mapInsert
    by_cases hlt : lexLt name hd.1
    · exfalso
      unfold mapFind at hfound
      by_cases hk : name = hd.1
      · rw [hk] at hlt
        rw [lexLt_irrefl] at hlt
        exact absurd hlt (by simp)
      · rw [if_neg hk] at hfound
        have hmem := mapFind_some_mem name w tl hfound
        have hrel := (List.pairwise_cons.mp hsort).1 (name, w) hmem
        have : lexLt name name = true := lexLt_trans _ _ _ hlt hrel
        rw [lexLt_irrefl] at this
        exact absurd this (by simp)
    · rw [if_neg hlt]
      by_cases hk : name = hd.1
      · rw [if_pos hk]
        unfold mapFind at hfound
        rw [if_pos hk] at hfound
        have : hd.2 = w := by
          simpa using hfound
        unfold fieldsSum
        simp [this]
        omega
      · rw [if_neg hk]
        have hfound' : mapFind name tl = some w := by
          unfold mapFind at hfound
          rw [if_neg hk] at hfound
          exact hfound
        unfold fieldsSum at ih ⊢
        simp only [List.map_cons, List.sum_cons]
        have := ih (List.pairwise_cons.mp hsort).2 hfound'
        omega

/-- After an insert, the inserted value is what lookup finds. -/
theorem mapFind_mapInsert_self (name : List Nat) (v : DataField) :
    ∀ l : List (List Nat × DataField), mapFind name (mapInsert lexLt name v l) = some v := by
  intro l
  induction l with
  | nil => simp [mapInsert, mapFind]
  | cons hd tl ih =>
    unfold mapInsert
    by_cases hlt : lexLt name hd.1
    · rw [if_pos hlt]
      unfold mapFind
      rw [if_pos rfl]
    · rw [if_neg hlt]
      by_cases hk : name = hd.1
      · rw [if_pos hk]
        unfold mapFind
        rw [if_pos rfl]
      · rw [if_neg hk]
        unfold mapFind
        rw [if_neg hk]
        exact ih

/-- The width of a present field is at most the width sum of the map. -/
theorem field_size_le_fieldsSum (name : List Nat) (w : DataField) :
    ∀ l : List (List Nat × DataField), mapFind name l = some w → w.size ≤ fieldsSum l := by
  intro l
  induction l with
  | nil => intro h; exact absurd h (by simp [mapFind])
  | cons hd tl ih =>
    intro h
    unfold mapFind at h
    unfold fieldsSum
    simp only [List.map_cons, List.sum_cons]
    by_cases hk : name = hd.1
    · rw [if_pos hk] at h
      have : hd.2 = w := by simpa using h
      rw [this]
      omega
    · rw [if_neg hk] at h
      have := ih h
      unfold fieldsSum at this
      omega

/-- Every field width is at most 8 bytes. -/
theorem getSizeOfType_le_8 (t : DataFieldType) : getSizeOfType t ≤ 8 := by
  cases t <;> decide

/-- C8: when addField is applied under a name already mapped to a field f
in a well-formed prototype (fields key-sorted as std::map keeps them, size
equal to the sum of the field widths, and size small enough that size_t
arithmetic cannot wrap), the field count stays the same, the new size is
the old size minus the old width plus the new width -- still the sum of all
field widths -- and the replaced field is found again with offset equal to
the new size minus its new width, i.e. at the tail of the layout. -/
theorem c8_addField_replaces_at_tail (p : DataPrototype) (name : List Nat)
    (knew : DataFieldType) (f : DataField)
    (hsort : PairwiseLt lexLt p.fields)
    (hsum : p.size = fieldsSum p.fields)
    (hbound : p.size + 8 < SIZE_T_MOD)
    (hfound : mapFind name p.fields = some f) :
    (p.addField name knew).numFields = p.numFields ∧
    (p.addField name knew).size = p.size - f.size + getSizeOfType knew ∧
    (p.addField name knew).size = fieldsSum (p.addField name knew).fields ∧
    (p.addField name knew).findField name =
      some ⟨(p.addField name knew).size - getSizeOfType knew, knew⟩ := by
  have hM : SIZE_T_MOD = 18446744073709551616 := by norm_num [SIZE_T_MOD]
  have hf8 : f.size ≤ 8 := getSizeOfType_le_8 f.type
  have hk8 : getSizeOfType knew ≤ 8 := getSizeOfType_le_8 knew
  have hfle : f.size ≤ p.size := by
    rw [hsum]
    exact field_size_le_fieldsSum name f p.fields hfound
  unfold DataPrototype.addField
  simp only [hfound]
  have hrm : (p.size + SIZE_T_MOD - f.size % SIZE_T_MOD) % SIZE_T_MOD = p.size - f.size := by
    rw [hM] at hbound ⊢
    have hfm : f.size % 18446744073709551616 = f.size := Nat.mod_eq_of_lt (by omega)
    rw [hfm]
    omega
  rw [hrm]
  have hsz : (p.size - f.size + getSizeOfType knew) % SIZE_T_MOD =
      p.size - f.size + getSizeOfType knew := by
    rw [hM] at hbound ⊢
    exact Nat.mod_eq_of_lt (by omega)
  have hds : (DataField.mk (p.size - f.size) knew).size = getSizeOfType knew := rfl
  rw [hds, hsz]
  refine ⟨?_, rfl, ?_, ?_⟩
  · unfold DataPrototype.numFields
    exact mapInsert_found_length name _ p.fields hsort (by rw [hfound]; rfl)
  · have hins := mapInsert_found_sum name ⟨p.size - f.size, knew⟩ f p.fields hsort hfound
    have hds2 : (DataField.mk (p.size - f.size) knew).size = getSizeOfType knew := rfl
    rw [hds2] at hins
    omega
  · unfold DataPrototype.findField
    rw [mapFind_mapInsert_self]
    have : p.size - f.size + getSizeOfType knew - getSizeOfType knew = p.size - f.size := by
      omega
    rw [this]

/-- The prototype with fields a (UINT32, offset 0) and b (UINT32, offset 4)
for the C8 witness. -/
def c8proto : DataPrototype :=
  ((DataPrototype.new 2).addField [97] .UINT32).addField [98] .UINT32

/-- C8 witness: replacing field a (width 4) of an 8-byte prototype by a
UINT16 gives the same field count, size 8 - 4 + 2 = 6 (the width sum), and
field a re-laid-out at offset 6 - 2 = 4, the tail. -/
theorem c8_addField_replaces_at_tail_witness :
    (c8proto.addField [97] .UINT16).numFields = c8proto.numFields ∧
    (c8proto.addField [97] .UINT16).size = c8proto.size - 4 + getSizeOfType .UINT16 ∧
    (c8proto.addField [97] .UINT16).size = fieldsSum (c8proto.addField [97] .UINT16).fields ∧
    (c8proto.addField [97] .UINT16).findField [97] =
      some ⟨(c8proto.addField [97] .UINT16).size - getSizeOfType .UINT16, .UINT16⟩ :=
  c8_addField_replaces_at_tail c8proto [97] .UINT16 ⟨0, .UINT32⟩
    (by unfold c8proto PairwiseLt
        decide)
    (by decide) (by decide) (by decide)

/-! ### Claim C3: the retry bound

The proof tracks, for a fixed request q with maxRetries = r, the potential
of the pending-ack table: each entry holding q contributes its remaining
retry budget r - numRetries. Every transmission of q by tick consumes one
unit of potential; no step creates potential once q has been sent. -/

/-- The remaining retry budget one pending entry holds for the request q. -/
def entryPhi (q : Message) (r : Nat) (e : SentMessage) : Nat :=
  if e.message = q then r - e.numRetries else 0

/-- The total remaining retry budget the pending-ack table holds for q. -/
def phi (q : Message) (r : Nat) (acks : List (Nat × SentMessage)) : Nat :=
  (acks.map (fun kv => entryPhi q r kv.2)).sum

/-- countMsg distributes over append. -/
theorem countMsg_append (q : Message) (l1 l2 : List Message) :
    countMsg q (l1 ++ l2) = countMsg q l1 + countMsg q l2 := by
  unfold countMsg
  rw [List.filter_append, List.length_append]

/-- A transcript holding one message other than q holds no copy of q. -/
theorem countMsg_single_ne (q m : Message) (h : m ≠ q) : countMsg q [m] = 0 := by
  unfold countMsg
  simp [h]

/-- phi of a cons. -/
theorem phi_cons (q : Message) (r : Nat) (k : Nat) (e : SentMessage)
    (l : List (Nat × SentMessage)) :
    phi q r ((k, e) :: l) = entryPhi q r e + phi q r l := by
  unfold phi
  simp

/-- Erasing an entry cannot increase the potential. -/
theorem phi_mapErase_le (q : Message) (r : Nat) (k : Nat) :
    ∀ l : List (Nat × SentMessage), phi q r (mapErase k l) ≤ phi q r l := by
  intro l
  induction l with
  | nil => exact Nat.le_refl _
  | cons hd tl ih =>
    obtain ⟨k', e⟩ := hd
    unfold mapErase
    by_cases hk : k = k'
    · rw [if_pos hk, phi_cons]
      omega
    · rw [if_neg hk, phi_cons, phi_cons]
      omega

/-- A fold of erasures cannot increase the potential. -/
theorem phi_foldl_erase_le (q : Message) (r : Nat) :
    ∀ (ks : List Nat) (l : List (Nat × SentMessage)),
      phi q r (ks.foldl (fun m k => mapErase k m) l) ≤ phi q r l := by
  intro ks
  induction ks with
  | nil => intro l; exact Nat.le_refl _
  | cons hd tl ih =>
    intro l
    rw [List.foldl_cons]
    exact Nat.le_trans (ih (mapErase hd l)) (phi_mapErase_le q r hd l)

/-- Inserting an entry adds at most that entry's own potential. -/
theorem phi_mapInsert_le (q : Message) (r : Nat) (k : Nat) (v : SentMessage) :
    ∀ l : List (Nat × SentMessage),
      phi q r (mapInsert natLt k v l) ≤ phi q r l + entryPhi q r v := by
  intro l
  induction l with
  | nil =>
    unfold mapInsert
    rw [phi_cons]
    unfold phi
    simp
  | cons hd tl ih =>
    obtain ⟨k', e⟩ := hd
    unfold mapInsert
    by_cases hlt : natLt k k'
    · rw [if_pos hlt]
      simp only [phi_cons]
      omega
    · rw [if_neg hlt]
      by_cases hk : k = k'
      · rw [if_pos hk]
        simp only [phi_cons]
        omega
      · rw [if_neg hk]
        simp only [phi_cons]
        omega

/-- A swept entry keeps its message. -/
theorem tickEntry_message (o : CommOptions) (now : Nat) (e : SentMessage) :
    (tickEntry o now e).1.message = e.message := by
  unfold tickEntry
  split_ifs <;> rfl

/-- One swept entry: the transmissions of q it performs, plus the budget it
retains, never exceed the budget it held. -/
theorem tickEntry_phi (q : Message) (r : Nat) (o : CommOptions) (now : Nat) (e : SentMessage)
    (ho : o.maxRetries = r) (hr : r < 256) :
    countMsg q (tickEntry o now e).2.1 + entryPhi q r (tickEntry o now e).1 ≤
      entryPhi q r e := by
  unfold tickEntry
  split_ifs with h1 h2
  · -- resend branch
    by_cases hm : e.message = q
    · rw [ho] at h2
      have hwrap : (e.numRetries + 1) % 256 = e.numRetries + 1 :=
        Nat.mod_eq_of_lt (by omega)
      unfold countMsg entryPhi
      simp [hm, hwrap]
      omega
    · have hcount : countMsg q [e.message] = 0 := countMsg_single_ne q _ hm
      rw [hcount]
      unfold entryPhi
      simp [hm]
  · -- removal branch
    unfold countMsg
    simp
  · -- not expired
    unfold countMsg
    simp

/-- The whole sweep: transmissions of q plus retained budget never exceed
the budget the table held. -/
theorem sweep_phi (q : Message) (r : Nat) (o : CommOptions) (now : Nat)
    (ho : o.maxRetries = r) (hr : r < 256) :
    ∀ acks : List (Nat × SentMessage),
      countMsg q ((sweepEntries o now acks).flatMap
          (fun (kr : Nat × (SentMessage × List Message × Bool)) => kr.2.2.1)) +
        phi q r ((sweepEntries o now acks).map
          (fun (kr : Nat × (SentMessage × List Message × Bool)) => (kr.1, kr.2.1))) ≤
      phi q r acks := by
  intro acks
  induction acks with
  | nil =>
    unfold sweepEntries countMsg
    simp [phi]
  | cons hd tl ih =>
    obtain ⟨k, e⟩ := hd
    unfold sweepEntries at ih ⊢
    simp only [List.map_cons, List.flatMap_cons]
    rw [countMsg_append, phi_cons]
    have hentry := tickEntry_phi q r o now e ho hr
    rw [phi_cons]
    omega

/-- The ack sweep of tick: transmissions of q plus retained budget never
exceed the budget held before the sweep. -/
theorem tickSweep_phi (q : Message) (r : Nat) (st1 : CommState) (now : Nat)
    (ho : st1.options.maxRetries = r) (hr : r < 256) :
    countMsg q (tickSweep st1 now).2 + phi q r (tickSweep st1 now).1.acksNeeded ≤
      phi q r st1.acksNeeded := by
  unfold tickSweep
  simp only []
  have herase := phi_foldl_erase_le q r
    (List.replicate st1.acksNeeded.length 0 ++
      ((sweepEntries st1.options now st1.acksNeeded).filter
        (fun (kr : Nat × (SentMessage × List Message × Bool)) => kr.2.2.2)).map
        (fun (kr : Nat × (SentMessage × List Message × Bool)) => kr.1))
    ((sweepEntries st1.options now st1.acksNeeded).map
      (fun (kr : Nat × (SentMessage × List Message × Bool)) => (kr.1, kr.2.1)))
  have hsweep := sweep_phi q r st1.options now ho hr st1.acksNeeded
  omega

/-- dispatchMessage leaves the table alone or erases one key. -/
theorem dispatchMessage_acks_char (st1 : CommState) (m : Message) :
    (dispatchMessage st1 m).1.acksNeeded = st1.acksNeeded ∨
    (dispatchMessage st1 m).1.acksNeeded = mapErase m.messageNumber st1.acksNeeded := by
  unfold dispatchMessage
  rw [dispatchCallbacks_fst]
  split_ifs
  · right; rfl
  · left; rfl
  · left; rfl

/-- listen leaves the table alone or erases one key. -/
theorem listen_acks_char (st : CommState) (data : List Nat) (now : Nat) :
    (listen st data now).1.acksNeeded = st.acksNeeded ∨
    ∃ k, (listen st data now).1.acksNeeded = mapErase k st.acksNeeded := by
  unfold listen
  split
  · left; rfl
  · split
    · left; rfl
    · rcases dispatchMessage_acks_char { st with lastMessageTime := now } _ with h | h
      · left; exact h
      · right; exact ⟨_, h⟩

/-- dispatchMessage does not change the options. -/
theorem dispatchMessage_options (st1 : CommState) (m : Message) :
    (dispatchMessage st1 m).1.options = st1.options := by
  unfold dispatchMessage
  rw [dispatchCallbacks_fst]
  split_ifs <;> rfl

/-- listen does not change the options. -/
theorem listen_options (st : CommState) (data : List Nat) (now : Nat) :
    (listen st data now).1.options = st.options := by
  unfold listen
  split
  · rfl
  · split
    · rfl
    · exact dispatchMessage_options _ _

/-- sendMessage does not change the options. -/
theorem sendMessage_options (st : CommState) (m : Message) (a : Bool) :
    (sendMessage st m a).1.options = st.options := by
  unfold sendMessage
  split_ifs <;> rfl

/-- No engine step changes the options. -/
theorem runStep_options (st : CommState) (s : Step) :
    (runStep st s).1.options = st.options := by
  cases s with
  | send m a => exact sendMessage_options st m a
  | tk d n =>
    unfold runStep tick
    simp only []
    rw [show (tickSweep (listen st d n).1 n).1.options = (listen st d n).1.options from rfl]
    exact listen_options st d n
  | ls d n => exact listen_options st d n

/-- No trace of engine steps changes the options. -/
theorem runTrace_options (steps : List Step) :
    ∀ st : CommState, (runTrace st steps).1.options = st.options := by
  induction steps with
  | nil => intro st; rfl
  | cons s rest ih =>
    intro st
    unfold runTrace
    simp only []
    rw [ih (runStep st s).1, runStep_options]

/-- One step that is not a user send of q: its transmissions of q plus the
retained potential never exceed the potential before the step. -/
theorem runStep_phi (q : Message) (r : Nat) (st : CommState) (s : Step)
    (ho : st.options.maxRetries = r) (hr : r < 256)
    (hs : ∀ m a, s = Step.send m a → m ≠ q) :
    countMsg q (runStep st s).2 + phi q r (runStep st s).1.acksNeeded ≤
      phi q r st.acksNeeded := by
  cases s with
  | send m a =>
    have hm : m ≠ q := hs m a rfl
    simp only [runStep]
    unfold sendMessage
    split_ifs with hc
    · simp only []
      rw [countMsg_single_ne q m hm]
      have hins := phi_mapInsert_le q r m.header.messageNumber ⟨m, 0, 0⟩ st.acksNeeded
      have hzero : entryPhi q r ⟨m, 0, 0⟩ = 0 := by
        unfold entryPhi
        simp [hm]
      omega
    · simp only []
      rw [countMsg_single_ne q m hm]
      omega
  | tk d n =>
    simp only [runStep]
    unfold tick
    simp only []
    have hsw := tickSweep_phi q r (listen st d n).1 n
      (by rw [listen_options]; exact ho) hr
    have hch := listen_acks_char st d n
    rcases hch with h | ⟨k, h⟩
    · rw [h] at hsw
      exact hsw
    · rw [h] at hsw
      have := phi_mapErase_le q r k st.acksNeeded
      omega
  | ls d n =>
    simp only [runStep]
    rw [show countMsg q [] = 0 from rfl]
    have hch := listen_acks_char st d n
    rcases hch with h | ⟨k, h⟩
    · rw [h]
      omega
    · rw [h]
      have := phi_mapErase_le q r k st.acksNeeded
      omega

/-- A trace with no user send of q: its transmissions of q plus retained
potential never exceed the initial potential. -/
theorem runTrace_phi (q : Message) (r : Nat) (steps : List Step)
    (hsteps : ∀ m a, Step.send m a ∈ steps → m ≠ q) :
    ∀ st : CommState, st.options.maxRetries = r → r < 256 →
      countMsg q (runTrace st steps).2 + phi q r (runTrace st steps).1.acksNeeded ≤
        phi q r st.acksNeeded := by
  induction steps with
  | nil =>
    intro st _ _
    unfold runTrace countMsg
    simp
  | cons s rest ih =>
    intro st ho hr
    unfold runTrace
    simp only []
    rw [countMsg_append]
    have hstep := runStep_phi q r st s ho hr
      (fun m a he => hsteps m a (by rw [he]; exact List.mem_cons_self _ _))
    have htail := ih (fun m a hm => hsteps m a (List.mem_cons_of_mem _ hm))
      (runStep st s).1 (by rw [runStep_options]; exact ho) hr
    omega

/-- Every entry of the pending table that carries the request q is keyed by
q's message number. -/
def KeysInv (q : Message) (st : CommState) : Prop :=
  ∀ k e, (k, e) ∈ st.acksNeeded → e.message = q → k = q.header.messageNumber

/-- Membership after an insert. -/
theorem mem_mapInsert {κ α : Type} [DecidableEq κ] (lt : κ → κ → Bool) (k : κ) (v : α) :
    ∀ (l : List (κ × α)) (x : κ × α), x ∈ mapInsert lt k v l → x = (k, v) ∨ x ∈ l := by
  intro l
  induction l with
  | nil =>
    intro x hx
    unfold mapInsert at hx
    simp at hx
    left
    exact hx
  | cons hd tl ih =>
    intro x hx
    unfold mapInsert at hx
    by_cases hlt : lt k hd.1
    · rw [if_pos hlt] at hx
      rcases List.mem_cons.mp hx with h | h
      · left; exact h
      · right; exact h
    · rw [if_neg hlt] at hx
      by_cases hk : k = hd.1
      · rw [if_pos hk] at hx
        rcases List.mem_cons.mp hx with h | h
        · left; exact h
        · right; exact List.mem_cons_of_mem _ h
      · rw [if_neg hk] at hx
        rcases List.mem_cons.mp hx with h | h
        · right; rw [h]; exact List.mem_cons_self _ _
        · rcases ih x h with h' | h'
          · left; exact h'
          · right; exact List.mem_cons_of_mem _ h'

/-- Membership after an erase. -/
theorem mem_mapErase {κ α : Type} [DecidableEq κ] (k : κ) :
    ∀ (l : List (κ × α)) (x : κ × α), x ∈ mapErase k l → x ∈ l := by
  intro l
  induction l with
  | nil =>
    intro x hx
    rw [show mapErase k ([] : List (κ × α)) = [] from rfl] at hx
    exact absurd hx (List.not_mem_nil x)
  | cons hd tl ih =>
    intro x hx
    unfold mapErase at hx
    by_cases hk : k = hd.1
    · rw [if_pos hk] at hx
      exact List.mem_cons_of_mem _ hx
    · rw [if_neg hk] at hx
      rcases List.mem_cons.mp hx with h | h
      · rw [h]; exact List.mem_cons_self _ _
      · exact List.mem_cons_of_mem _ (ih x h)

/-- Membership after a fold of erasures. -/
theorem mem_foldl_erase {κ α : Type} [DecidableEq κ] :
    ∀ (ks : List κ) (l : List (κ × α)) (x : κ × α),
      x ∈ ks.foldl (fun m k => mapErase k m) l → x ∈ l := by
  intro ks
  induction ks with
  | nil => intro l x hx; exact hx
  | cons hd tl ih =>
    intro l x hx
    rw [List.foldl_cons] at hx
    exact mem_mapErase hd l x (ih (mapErase hd l) x hx)

/-- Membership in the updated table the sweep produces comes from an entry
of the old table with the same key and the same message. -/
theorem mem_sweep_map (o : CommOptions) (now : Nat) (acks : List (Nat × SentMessage))
    (k : Nat) (e : SentMessage)
    (h : (k, e) ∈ (sweepEntries o now acks).map
      (fun (kr : Nat × (SentMessage × List Message × Bool)) => (kr.1, kr.2.1))) :
    ∃ e0 : SentMessage, (k, e0) ∈ acks ∧ e.message = e0.message := by
  unfold sweepEntries at h
  rw [List.map_map] at h
  obtain ⟨⟨k0, e0⟩, hmem, heq⟩ := List.mem_map.mp h
  simp only [Function.comp] at heq
  have hk : k0 = k := congrArg Prod.fst heq
  have he : (tickEntry o now e0).1 = e := congrArg Prod.snd heq
  refine ⟨e0, ?_, ?_⟩
  · rw [← hk]; exact hmem
  · rw [← he, tickEntry_message]

/-- KeysInv survives every engine step. -/
theorem runStep_keysInv (q : Message) (st : CommState) (s : Step)
    (hinv : KeysInv q st) : KeysInv q (runStep st s).1 := by
  cases s with
  | send m a =>
    intro k e hmem hq
    simp only [runStep] at hmem
    unfold sendMessage at hmem
    split_ifs at hmem with hc
    · simp only [] at hmem
      rcases mem_mapInsert natLt m.header.messageNumber ⟨m, 0, 0⟩ st.acksNeeded (k, e) hmem
        with h | h
      · have hk : k = m.header.messageNumber := congrArg Prod.fst h
        have he : e = (⟨m, 0, 0⟩ : SentMessage) := congrArg Prod.snd h
        rw [hk]
        rw [he] at hq
        simp only [] at hq
        rw [hq]
      · exact hinv k e h hq
    · exact hinv k e hmem hq
  | tk d n =>
    intro k e hmem hq
    simp only [runStep] at hmem
    unfold tick tickSweep at hmem
    simp only [] at hmem
    have hmem2 := mem_foldl_erase _ _ _ hmem
    obtain ⟨e0, hmem0, hmsg⟩ := mem_sweep_map _ _ _ _ _ hmem2
    have hlst : KeysInv q (listen st d n).1 := by
      intro k' e' hmem' hq'
      rcases listen_acks_char st d n with hch | ⟨kk, hch⟩
      · rw [hch] at hmem'
        exact hinv k' e' hmem' hq'
      · rw [hch] at hmem'
        exact hinv k' e' (mem_mapErase kk _ _ hmem') hq'
    exact hlst k e0 hmem0 (by rw [← hmsg]; exact hq)
  | ls d n =>
    intro k e hmem hq
    simp only [runStep] at hmem
    rcases listen_acks_char st d n with hch | ⟨kk, hch⟩
    · rw [hch] at hmem
      exact hinv k e hmem hq
    · rw [hch] at hmem
      exact hinv k e (mem_mapErase kk _ _ hmem) hq

/-- KeysInv survives every trace. -/
theorem runTrace_keysInv (q : Message) (steps : List Step) :
    ∀ st : CommState, KeysInv q st → KeysInv q (runTrace st steps).1 := by
  induction steps with
  | nil => intro st h; exact h
  | cons s rest ih =>
    intro st h
    unfold runTrace
    simp only []
    exact ih (runStep st s).1 (runStep_keysInv q st s h)

/-- A table with no entry carrying q has potential zero. -/
theorem phi_eq_zero_of_fresh (q : Message) (r : Nat) :
    ∀ l : List (Nat × SentMessage), (∀ k e, (k, e) ∈ l → e.message ≠ q) →
      phi q r l = 0 := by
  intro l
  induction l with
  | nil => intro _; rfl
  | cons hd tl ih =>
    intro h
    obtain ⟨k, e⟩ := hd
    rw [phi_cons]
    have h1 : e.message ≠ q := h k e (List.mem_cons_self _ _)
    have h2 := ih (fun k' e' hm => h k' e' (List.mem_cons_of_mem _ hm))
    unfold entryPhi
    rw [if_neg h1, h2]

/-- An absent key has no entry in the list. -/
theorem mapFind_none_not_mem {κ α : Type} [DecidableEq κ] (k : κ) :
    ∀ l : List (κ × α), mapFind k l = none → ∀ v, (k, v) ∉ l := by
  intro l
  induction l with
  | nil => intro _ v hv; exact absurd hv (List.not_mem_nil _)
  | cons hd tl ih =>
    intro h v hv
    unfold mapFind at h
    by_cases hk : k = hd.1
    · rw [if_pos hk] at h
      exact absurd h (by simp)
    · rw [if_neg hk] at h
      rcases List.mem_cons.mp hv with h' | h'
      · exact hk (by rw [← h'])
      · exact ih h v h'

/-- When KeysInv holds and the table has no entry under q's number, the
table holds no potential for q. -/
theorem phi_eq_zero_of_not_found (q : Message) (r : Nat) (l : List (Nat × SentMessage))
    (hinv : ∀ k e, (k, e) ∈ l → e.message = q → k = q.header.messageNumber)
    (hnone : mapFind q.header.messageNumber l = none) : phi q r l = 0 := by
  apply phi_eq_zero_of_fresh
  intro k e hmem hq
  have hk := hinv k e hmem hq
  rw [hk] at hmem
  exact mapFind_none_not_mem _ l hnone e hmem

/-- C3: once a request q with a fresh message number is sent with ack
required under maxRetries = r (below 256, as the uint8 field guarantees)
and the user never hands q to sendMessage again, the whole run -- the
original send plus any sequence of tick, listen, and unrelated send calls
-- transmits q at most r + 1 times; and from any point where the
pending-ack table no longer holds an entry under q's message number, the
remainder of the run transmits q zero times. -/
theorem c3_retry_bound (st0 : CommState) (q : Message) (steps : List Step)
    (hr : st0.options.maxRetries < 256)
    (hq : q.header.type = REQUEST)
    (hfresh : ∀ k e, (k, e) ∈ st0.acksNeeded → e.message ≠ q)
    (hsteps : ∀ m a, Step.send m a ∈ steps → m ≠ q) :
    countMsg q ((sendMessage st0 q true).2 ++ (runTrace (sendMessage st0 q true).1 steps).2) ≤
      st0.options.maxRetries + 1 ∧
    (∀ pre post, steps = pre ++ post →
      mapFind q.header.messageNumber
        (runTrace (sendMessage st0 q true).1 pre).1.acksNeeded = none →
      countMsg q (runTrace (runTrace (sendMessage st0 q true).1 pre).1 post).2 = 0) := by
  set r := st0.options.maxRetries with hrdef
  have hsend : sendMessage st0 q true =
      ({ st0 with acksNeeded :=
          mapInsert natLt q.header.messageNumber ⟨q, 0, 0⟩ st0.acksNeeded }, [q]) := by
    unfold sendMessage
    rw [if_pos ⟨rfl, hq⟩]
  have hphi0 : phi q r st0.acksNeeded = 0 := phi_eq_zero_of_fresh q r st0.acksNeeded hfresh
  have hphi1 : phi q r
      (mapInsert natLt q.header.messageNumber ⟨q, 0, 0⟩ st0.acksNeeded) ≤ r := by
    have hins := phi_mapInsert_le q r q.header.messageNumber ⟨q, 0, 0⟩ st0.acksNeeded
    have hself : entryPhi q r ⟨q, 0, 0⟩ = r := by
      unfold entryPhi
      simp
    omega
  have hopts : (sendMessage st0 q true).1.options = st0.options := sendMessage_options st0 q true
  have hinv1 : KeysInv q (sendMessage st0 q true).1 := by
    intro k e hmem hqe
    rw [hsend] at hmem
    simp only [] at hmem
    rcases mem_mapInsert natLt q.header.messageNumber ⟨q, 0, 0⟩ st0.acksNeeded (k, e) hmem
      with h | h
    · exact congrArg Prod.fst h
    · exact absurd hqe (hfresh k e h)
  constructor
  · rw [countMsg_append, hsend]
    simp only []
    have hone : countMsg q [q] = 1 := by
      unfold countMsg
      simp
    rw [hone]
    have htr := runTrace_phi q r steps hsteps (sendMessage st0 q true).1
      (by rw [hopts]) hr
    rw [hsend] at htr
    simp only [] at htr
    omega
  · intro pre post hsplit hnone
    have hinvP : KeysInv q (runTrace (sendMessage st0 q true).1 pre).1 :=
      runTrace_keysInv q pre (sendMessage st0 q true).1 hinv1
    have hphiP : phi q r (runTrace (sendMessage st0 q true).1 pre).1.acksNeeded = 0 :=
      phi_eq_zero_of_not_found q r _ hinvP hnone
    have hoptsP : (runTrace (sendMessage st0 q true).1 pre).1.options = st0.options := by
      rw [runTrace_options, hopts]
    have htr := runTrace_phi q r post
      (fun m a hm => hsteps m a (by rw [hsplit]; exact List.mem_append_right _ hm))
      (runTrace (sendMessage st0 q true).1 pre).1 (by rw [hoptsP]) hr
    omega

/-- C3 witness: maxRetries 3, a fresh request with number 7, and a run of
one tick (far past the timeout, so the tick retransmits) and one unrelated
listen. -/
theorem c3_retry_bound_witness :
    countMsg c4req ((sendMessage (CommState.init CommOptions.default) c4req true).2 ++
      (runTrace (sendMessage (CommState.init CommOptions.default) c4req true).1
        [Step.tk [] 5000, Step.ls [] 6000]).2) ≤
      (CommState.init CommOptions.default).options.maxRetries + 1 ∧
    (∀ pre post, ([Step.tk [] 5000, Step.ls [] 6000] : List Step) = pre ++ post →
      mapFind c4req.header.messageNumber
        (runTrace (sendMessage (CommState.init CommOptions.default) c4req true).1
          pre).1.acksNeeded = none →
      countMsg c4req (runTrace
        (runTrace (sendMessage (CommState.init CommOptions.default) c4req true).1 pre).1
        post).2 = 0) :=
  c3_retry_bound (CommState.init CommOptions.default) c4req [Step.tk [] 5000, Step.ls [] 6000]
    (by decide) rfl
    (by intro k e hmem; exact absurd hmem (by simp [CommState.init]))
    (by intro m a hmem; simp at hmem)

end rdscom
